import Mathlib

/-!
Shallow embedding of `src/gunshot_logger.py` (quickSecureLLC/gunshot-logger)
and proofs of the specification claims about it.

Samples are modelled as rationals (the Python code stores `float32` samples and
copies them verbatim; none of the verified operations depend on rounding).
Wall-clock timestamps and decibel levels are likewise rationals.
-/

namespace GunshotSpec

/-! ## CircularBuffer (src/gunshot_logger.py, lines 44-82) -/

/-- The `CircularBuffer` object: a fixed array `data` of `size` zeros,
a write cursor `index`, a wrap flag `is_full`, and the running total
`total_samples_written`. -/
structure CircularBuffer where
  size : Nat
  data : List ℚ
  index : Nat
  is_full : Bool
  total_samples_written : Nat
deriving Repr, DecidableEq

/-- The constructor `CircularBuffer.__init__` with `size = duration * sample_rate * channels`:
`np.zeros(size)`, cursor 0, not full, nothing written. -/
def CircularBuffer.init (size : Nat) : CircularBuffer :=
  { size := size
    data := List.replicate size 0
    index := 0
    is_full := false
    total_samples_written := 0 }

/-- One iteration of the loop body in `CircularBuffer.write`:
`data[index] = x; index = (index + 1) % size; if index == 0: is_full = True`. -/
def CircularBuffer.writeSample (b : CircularBuffer) (x : ℚ) : CircularBuffer :=
  { b with
    data := b.data.set b.index x
    index := (b.index + 1) % b.size
    is_full := b.is_full || decide ((b.index + 1) % b.size = 0) }

/-- The method `CircularBuffer.write(data)`: the per-sample loop, then
`total_samples_written += data_len`.  (The Python early return on an empty
block coincides with folding over the empty list.) -/
def CircularBuffer.write (b : CircularBuffer) (block : List ℚ) : CircularBuffer :=
  let b' := block.foldl CircularBuffer.writeSample b
  { b' with total_samples_written := b'.total_samples_written + block.length }

/-- A whole sequence of `write` calls, in order. -/
def CircularBuffer.writeAll (b : CircularBuffer) (blocks : List (List ℚ)) : CircularBuffer :=
  blocks.foldl CircularBuffer.write b

/-- The method `CircularBuffer.get_buffer`: `data[:index]` when not yet full, else
`np.roll(data, -index)` — i.e. `data[index:] ++ data[:index]`, most recent
samples at the end. -/
def CircularBuffer.get_buffer (b : CircularBuffer) : List ℚ :=
  if !b.is_full then b.data.take b.index
  else b.data.drop b.index ++ b.data.take b.index

/-- Well-formedness maintained by the program: the array has length `size`,
the cursor is in range, and the capacity is positive (the Python code would
raise `ZeroDivisionError` on `% 0` otherwise). -/
def CircularBuffer.WF (b : CircularBuffer) : Prop :=
  b.data.length = b.size ∧ b.index < b.size ∧ 0 < b.size

theorem CircularBuffer.WF_init (S : Nat) (hS : 0 < S) : (CircularBuffer.init S).WF := by
  refine ⟨?_, hS, hS⟩
  simp [CircularBuffer.init]

theorem CircularBuffer.WF_writeSample {b : CircularBuffer} (h : b.WF) (x : ℚ) :
    (b.writeSample x).WF := by
  obtain ⟨hlen, hidx, hpos⟩ := h
  refine ⟨?_, ?_, hpos⟩
  · simpa [CircularBuffer.writeSample] using hlen
  · exact Nat.mod_lt _ hpos

theorem CircularBuffer.size_writeSample (b : CircularBuffer) (x : ℚ) :
    (b.writeSample x).size = b.size := rfl

theorem CircularBuffer.length_get_buffer {b : CircularBuffer} (h : b.WF) :
    b.get_buffer.length = if b.is_full then b.size else b.index := by
  obtain ⟨hlen, hidx, _⟩ := h
  cases hf : b.is_full <;> simp [CircularBuffer.get_buffer, hf, hlen] <;> omega

theorem CircularBuffer.length_get_buffer_le {b : CircularBuffer} (h : b.WF) :
    b.get_buffer.length ≤ b.size := by
  rw [CircularBuffer.length_get_buffer h]
  obtain ⟨-, hidx, -⟩ := h
  cases hf : b.is_full <;> simp <;> omega

/-- Buffer step, case: not yet full and the cursor does not wrap. -/
theorem buf_step_notfull_nowrap (data : List ℚ) (x : ℚ) (i S : Nat)
    (hlen : data.length = S) (hi : i + 1 < S) :
    (data.take i ++ x :: data.drop (i+1)).take (i+1)
      = ((data.take i) ++ [x]).drop ((data.take i).length + 1 - S) := by
  have h1 : (data.take i).length = i := by simp [List.length_take]; omega
  have h0 : i + 1 - S = 0 := by omega
  rw [List.take_append_eq_append_take, h1, h0]
  simp [List.take_take, Nat.min_def, show i + 1 - i = 1 by omega]

/-- Buffer step, case: not yet full and the write fills the last slot. -/
theorem buf_step_notfull_wrap (data : List ℚ) (x : ℚ) (i S : Nat)
    (hlen : data.length = S) (hi : i + 1 = S) :
    ((data.take i ++ [x]).drop 0 ++ (data.take i ++ [x]).take 0)
      = ((data.take i) ++ [x]).drop ((data.take i).length + 1 - S) := by
  have h1 : (data.take i).length = i := by simp [List.length_take]; omega
  simp [h1, show i + 1 - S = 0 by omega]

/-- Buffer step, case: already full and the cursor does not wrap. -/
theorem buf_step_full_nowrap (data : List ℚ) (x : ℚ) (i S : Nat)
    (hlen : data.length = S) (hi : i + 1 < S) :
    ((data.take i ++ x :: data.drop (i+1)).drop (i+1) ++ (data.take i ++ x :: data.drop (i+1)).take (i+1))
      = ((data.drop i ++ data.take i) ++ [x]).drop ((data.drop i ++ data.take i).length + 1 - S) := by
  have h1 : (data.take i).length = i := by simp [List.length_take]; omega
  have hL : (data.drop i ++ data.take i).length + 1 - S = 1 := by
    simp [List.length_append, h1, List.length_drop, hlen]; omega
  rw [hL]
  simp only [List.drop_append_eq_append_drop, List.take_append_eq_append_take, List.drop_drop,
    List.take_take, List.length_append, List.length_take, List.length_drop, hlen, h1]
  rw [show i + 1 - i = 1 by omega, show (i + 1) ⊓ i = i by omega,
    show (1 : Nat) - (S - i) = 0 by omega, show i + 1 = 1 + i by omega]
  have h5 : List.drop (1 + i) (List.take i data) = [] := List.drop_eq_nil_of_le (by rw [h1]; omega)
  rw [h5]
  simp [List.append_assoc, show (1 : Nat) - (S - i + i) = 0 by omega]

/-- Buffer step, case: already full and the cursor wraps back to 0. -/
theorem buf_step_full_wrap (data : List ℚ) (x : ℚ) (i S : Nat)
    (hlen : data.length = S) (hi : i + 1 = S) :
    ((data.take i ++ [x]).drop 0 ++ (data.take i ++ [x]).take 0)
      = ((data.drop i ++ data.take i) ++ [x]).drop ((data.drop i ++ data.take i).length + 1 - S) := by
  have h1 : (data.take i).length = i := by simp [List.length_take]; omega
  have hL : (data.drop i ++ data.take i).length + 1 - S = 1 := by
    simp [List.length_append, h1, List.length_drop, hlen]; omega
  have h3 : data.drop i = data[i] :: data.drop (i+1) := List.drop_eq_getElem_cons (by omega)
  have h4 : data.drop (i+1) = [] := List.drop_eq_nil_of_le (by omega)
  rw [hL, h3, h4]
  simp

theorem CircularBuffer.get_buffer_of_not_full {b : CircularBuffer} (h : b.is_full = false) :
    b.get_buffer = b.data.take b.index := by
  simp [CircularBuffer.get_buffer, h]

theorem CircularBuffer.get_buffer_of_full {b : CircularBuffer} (h : b.is_full = true) :
    b.get_buffer = b.data.drop b.index ++ b.data.take b.index := by
  simp [CircularBuffer.get_buffer, h]

/-- One sample write moves the logical contents one step: append the new
sample and drop the overwritten head once the buffer is at capacity. -/
theorem CircularBuffer.get_buffer_writeSample {b : CircularBuffer} (h : b.WF) (x : ℚ) :
    (b.writeSample x).get_buffer
      = (b.get_buffer ++ [x]).drop (b.get_buffer.length + 1 - b.size) := by
  obtain ⟨hlen, hidx, hpos⟩ := h
  have hset : b.data.set b.index x = b.data.take b.index ++ x :: b.data.drop (b.index + 1) :=
    List.set_eq_take_cons_drop x (by omega)
  have hdata' : (b.writeSample x).data = b.data.set b.index x := rfl
  have hindex' : (b.writeSample x).index = (b.index + 1) % b.size := rfl
  rcases Nat.lt_or_ge (b.index + 1) b.size with hi | hi
  · -- the cursor does not wrap
    have hmod : (b.index + 1) % b.size = b.index + 1 := Nat.mod_eq_of_lt hi
    cases hf : b.is_full
    · -- not yet full: remains not full
      have hfull' : (b.writeSample x).is_full = false := by
        simp [CircularBuffer.writeSample, hf, hmod]
      have hgb := CircularBuffer.get_buffer_of_not_full hf
      have hgb' := CircularBuffer.get_buffer_of_not_full hfull'
      rw [hdata', hindex', hmod] at hgb'
      rw [hgb', hgb, hset]
      exact buf_step_notfull_nowrap b.data x b.index b.size hlen hi
    · -- already full: stays full
      have hfull' : (b.writeSample x).is_full = true := by
        simp [CircularBuffer.writeSample, hf]
      have hgb := CircularBuffer.get_buffer_of_full hf
      have hgb' := CircularBuffer.get_buffer_of_full hfull'
      rw [hdata', hindex', hmod] at hgb'
      rw [hgb', hgb, hset]
      exact buf_step_full_nowrap b.data x b.index b.size hlen hi
  · -- the cursor wraps to 0
    have hieq : b.index + 1 = b.size := by omega
    have hmod : (b.index + 1) % b.size = 0 := by rw [hieq]; exact Nat.mod_self _
    have hdropnil : b.data.drop (b.index + 1) = [] := by
      apply List.drop_eq_nil_of_le; omega
    have hset' : b.data.set b.index x = b.data.take b.index ++ [x] := by
      rw [hset, hdropnil]
    have hfull' : (b.writeSample x).is_full = true := by
      simp [CircularBuffer.writeSample, hmod]
    have hgb' := CircularBuffer.get_buffer_of_full hfull'
    rw [hdata', hindex', hmod, hset'] at hgb'
    cases hf : b.is_full
    · -- filling the last slot: becomes full
      have hgb := CircularBuffer.get_buffer_of_not_full hf
      rw [hgb', hgb]
      exact buf_step_notfull_wrap b.data x b.index b.size hlen hieq
    · -- already full, cursor wraps
      have hgb := CircularBuffer.get_buffer_of_full hf
      rw [hgb', hgb]
      exact buf_step_full_wrap b.data x b.index b.size hlen hieq

theorem drop_append_drop (A C : List ℚ) (i j : Nat) (h : i ≤ A.length) :
    (A.drop i ++ C).drop j = (A ++ C).drop (i + j) := by
  rw [List.drop_append_eq_append_drop, List.drop_append_eq_append_drop, List.drop_drop,
    List.length_drop, show j - (A.length - i) = i + j - A.length from by omega]

theorem CircularBuffer.get_buffer_foldl : ∀ (xs : List ℚ) (b : CircularBuffer), b.WF →
    (xs.foldl CircularBuffer.writeSample b).get_buffer
      = (b.get_buffer ++ xs).drop (b.get_buffer.length + xs.length - b.size)
  | [], b, h => by
    simp only [List.foldl_nil, List.append_nil, List.length_nil, Nat.add_zero]
    rw [Nat.sub_eq_zero_of_le (CircularBuffer.length_get_buffer_le h), List.drop_zero]
  | x :: xs, b, h => by
    have hWF' := CircularBuffer.WF_writeSample h x
    have hle := CircularBuffer.length_get_buffer_le h
    have ih := CircularBuffer.get_buffer_foldl xs (b.writeSample x) hWF'
    rw [List.foldl_cons, ih, CircularBuffer.size_writeSample,
      CircularBuffer.get_buffer_writeSample h x,
      drop_append_drop _ _ _ _ (by simp only [List.length_append, List.length_singleton, List.length_cons, List.length_nil]; omega)]
    congr 1
    · simp only [List.length_drop, List.length_append, List.length_cons, List.length_nil]
      omega
    · simp

theorem CircularBuffer.total_foldl (xs : List ℚ) : ∀ b : CircularBuffer,
    (xs.foldl CircularBuffer.writeSample b).total_samples_written = b.total_samples_written := by
  induction xs with
  | nil => intro b; rfl
  | cons x xs ih => intro b; simpa using ih (b.writeSample x)

theorem CircularBuffer.foldl_total_set (xs : List ℚ) : ∀ (b : CircularBuffer) (t : Nat),
    xs.foldl CircularBuffer.writeSample { b with total_samples_written := t }
      = { xs.foldl CircularBuffer.writeSample b with total_samples_written := t } := by
  induction xs with
  | nil => intro b t; rfl
  | cons x xs ih =>
    intro b t
    simpa using ih (b.writeSample x) t

theorem CircularBuffer.get_buffer_total_set (b : CircularBuffer) (t : Nat) :
    ({ b with total_samples_written := t } : CircularBuffer).get_buffer = b.get_buffer := rfl

theorem CircularBuffer.write_eq (b : CircularBuffer) (block : List ℚ) :
    b.write block
      = { block.foldl CircularBuffer.writeSample b with
          total_samples_written := b.total_samples_written + block.length } := by
  simp [CircularBuffer.write, CircularBuffer.total_foldl]

theorem CircularBuffer.writeAll_eq (blocks : List (List ℚ)) : ∀ b : CircularBuffer,
    b.writeAll blocks
      = { blocks.flatten.foldl CircularBuffer.writeSample b with
          total_samples_written := b.total_samples_written + blocks.flatten.length } := by
  induction blocks with
  | nil => intro b; simp [CircularBuffer.writeAll]
  | cons bl blocks ih =>
    intro b
    have hstep : b.writeAll (bl :: blocks) = (b.write bl).writeAll blocks := rfl
    rw [hstep, ih, CircularBuffer.write_eq, CircularBuffer.foldl_total_set]
    simp [List.foldl_append, Nat.add_assoc]

/-- Claim C1: for any sequence of `write` calls on a buffer of capacity `S`,
`get_buffer` returns the concatenation of the writes when the total fits, and
exactly the last `S` samples in original order otherwise; its length is
`min S total_samples_written` and never exceeds `S`. -/
theorem C1_rolling_buffer_snapshot (S : Nat) (hS : 0 < S) (blocks : List (List ℚ)) :
    ((CircularBuffer.init S).writeAll blocks).total_samples_written = blocks.flatten.length
    ∧ (blocks.flatten.length ≤ S → ((CircularBuffer.init S).writeAll blocks).get_buffer = blocks.flatten)
    ∧ (S < blocks.flatten.length →
        ((CircularBuffer.init S).writeAll blocks).get_buffer
          = blocks.flatten.drop (blocks.flatten.length - S))
    ∧ ((CircularBuffer.init S).writeAll blocks).get_buffer.length = min S blocks.flatten.length
    ∧ ((CircularBuffer.init S).writeAll blocks).get_buffer.length ≤ S := by
  have hwf := CircularBuffer.WF_init S hS
  have hall := CircularBuffer.writeAll_eq blocks (CircularBuffer.init S)
  have h1 : ((CircularBuffer.init S).writeAll blocks).get_buffer
      = blocks.flatten.drop (blocks.flatten.length - S) := by
    rw [hall, CircularBuffer.get_buffer_total_set, CircularBuffer.get_buffer_foldl _ _ hwf]
    simp [CircularBuffer.init, CircularBuffer.get_buffer]
  have hlen : ((CircularBuffer.init S).writeAll blocks).get_buffer.length
      = min S blocks.flatten.length := by
    rw [h1, List.length_drop]
    omega
  refine ⟨?_, ?_, ?_, hlen, ?_⟩
  · rw [hall]
    simp [CircularBuffer.init]
  · intro hle
    rw [h1, Nat.sub_eq_zero_of_le hle, List.drop_zero]
  · intro _
    exact h1
  · rw [hlen]; omega

/-- Witness for C1 at `S = 2` with writes `[1]` then `[2, 3]`. -/
theorem C1_rolling_buffer_snapshot_witness :
    ((CircularBuffer.init 2).writeAll [[(1 : ℚ)], [2, 3]]).get_buffer = [2, 3]
    ∧ ((CircularBuffer.init 2).writeAll [[(1 : ℚ)], [2, 3]]).total_samples_written = 3 := by
  have h := C1_rolling_buffer_snapshot 2 (by norm_num) [[(1 : ℚ)], [2, 3]]
  constructor
  · have h2 := h.2.2.1 (by simp)
    simpa using h2
  · simpa using h.1

/-! ## Detection state machine (src/gunshot_logger.py, lines 292-318)

`audio_callback` keeps `self.detection_state` in `{'IDLE', 'TRIGGERED'}` with
`self.trigger_time`.  In `IDLE`, a level strictly above the threshold moves to
`TRIGGERED` and records the time; in `TRIGGERED`, once
`now - trigger_time >= CAPTURE_DELAY` the buffer snapshot is handed to the
queue (one capture request) and the state returns to `IDLE`; the level is not
consulted while `TRIGGERED`. -/

/-- The pair `self.detection_state` together with `self.trigger_time`. -/
inductive DetectionState where
  | idle
  | triggered (trigger_time : ℚ)
deriving Repr, DecidableEq

/-- The configuration the state machine reads: `DETECTION_THRESHOLD` and
`CAPTURE_DELAY`. -/
structure DetectConfig where
  threshold : ℚ
  capture_delay : ℚ
deriving Repr, DecidableEq

/-- One run of the detection branch of `audio_callback` for a block whose
decibel level is `level`, arriving at wall-clock time `now`.  The returned
Bool is `true` exactly when a capture request is emitted (the snapshot is
handed to the detection queue). -/
def observe (cfg : DetectConfig) (s : DetectionState) (level now : ℚ) :
    DetectionState × Bool :=
  match s with
  | .idle => if level > cfg.threshold then (.triggered now, false) else (.idle, false)
  | .triggered t =>
      if now - t ≥ cfg.capture_delay then (.idle, true) else (.triggered t, false)

/-- Repeated `audio_callback` invocations over a list of `(level, now)`
observations; returns the final state and the number of capture requests. -/
def observeRun (cfg : DetectConfig) (s : DetectionState) :
    List (ℚ × ℚ) → DetectionState × Nat
  | [] => (s, 0)
  | (level, now) :: rest =>
      let r := observe cfg s level now
      let rr := observeRun cfg r.1 rest
      (rr.1, (if r.2 then 1 else 0) + rr.2)

theorem observeRun_cons (cfg : DetectConfig) (s : DetectionState) (level now : ℚ)
    (rest : List (ℚ × ℚ)) :
    observeRun cfg s ((level, now) :: rest)
      = ((observeRun cfg (observe cfg s level now).1 rest).1,
         (if (observe cfg s level now).2 then 1 else 0)
           + (observeRun cfg (observe cfg s level now).1 rest).2) := rfl

theorem observeRun_append (cfg : DetectConfig) (s : DetectionState)
    (l1 l2 : List (ℚ × ℚ)) :
    observeRun cfg s (l1 ++ l2)
      = ((observeRun cfg (observeRun cfg s l1).1 l2).1,
         (observeRun cfg s l1).2 + (observeRun cfg (observeRun cfg s l1).1 l2).2) := by
  induction l1 generalizing s with
  | nil => simp [observeRun]
  | cons p rest ih =>
    obtain ⟨level, now⟩ := p
    rw [List.cons_append, observeRun_cons, observeRun_cons, ih]
    simp [Nat.add_assoc]

/-- While `TRIGGERED` and before the capture delay has elapsed, every
observation leaves the state unchanged and emits nothing, whatever its level. -/
theorem observeRun_triggered_wait (cfg : DetectConfig) (t : ℚ) (pre : List (ℚ × ℚ))
    (hpre : ∀ p ∈ pre, p.2 - t < cfg.capture_delay) :
    observeRun cfg (.triggered t) pre = (.triggered t, 0) := by
  induction pre with
  | nil => rfl
  | cons p rest ih =>
    obtain ⟨level, now⟩ := p
    have hlt : now - t < cfg.capture_delay := hpre (level, now) (by simp)
    have hobs : observe cfg (.triggered t) level now = (.triggered t, false) := by
      simp [observe, not_le.mpr hlt]
    simp [observeRun, hobs, ih fun p hp => hpre p (by simp [hp])]

/-- Claim C2: the detection state machine with threshold `T := cfg.threshold`
and delay `D := cfg.capture_delay`: in Idle a level strictly above `T`
triggers (recording `now`) and a level at or below `T` does nothing; in
Triggered the window neither retriggers nor extends, emits nothing before the
delay elapses, and on the first observation at or past `trigger + D` emits
exactly one capture request and returns to Idle. -/
theorem C2_detection_state_machine (cfg : DetectConfig) (t level now : ℚ)
    (pre : List (ℚ × ℚ)) :
    (level > cfg.threshold → observe cfg .idle level now = (.triggered now, false))
    ∧ (level ≤ cfg.threshold → observe cfg .idle level now = (.idle, false))
    ∧ (now - t ≥ cfg.capture_delay → observe cfg (.triggered t) level now = (.idle, true))
    ∧ (now - t < cfg.capture_delay → observe cfg (.triggered t) level now = (.triggered t, false))
    ∧ ((∀ p ∈ pre, p.2 - t < cfg.capture_delay) → now - t ≥ cfg.capture_delay →
        observeRun cfg (.triggered t) (pre ++ [(level, now)]) = (.idle, 1)) := by
  refine ⟨?_, ?_, ?_, ?_, ?_⟩
  · intro h; simp [observe, h]
  · intro h; simp [observe, not_lt.mpr h]
  · intro h; simp [observe, h]
  · intro h; simp [observe, not_le.mpr h]
  · intro hpre hnow
    rw [observeRun_append, observeRun_triggered_wait cfg t pre hpre]
    simp [observeRun, observe, hnow]

/-- Witness for C2: threshold −20 dB, delay 1/2 s; trigger at time 0, a loud
sample at 1/4 s does not retrigger, the callback at 1 s emits exactly one
capture request. -/
theorem C2_detection_state_machine_witness :
    observeRun ⟨-20, 1/2⟩ (.triggered 0) [(-5, 1/4), (-10, 1)] = (.idle, 1) := by
  have h := (C2_detection_state_machine ⟨-20, 1/2⟩ 0 (-10) 1 [(-5, 1/4)]).2.2.2.2
  have h1 : ∀ p ∈ [((-5 : ℚ), (1/4 : ℚ))], p.2 - 0 < (1:ℚ)/2 := by
    intro p hp
    simp only [List.mem_singleton] at hp
    subst hp
    norm_num
  simpa using h h1 (by norm_num)

/-! ## DetectionQueue (src/gunshot_logger.py, lines 115, 314-317, 397-406)

`queue.Queue(maxsize=MAX_QUEUE_SIZE)`.  The producer calls `put_nowait`,
which raises `queue.Full` (reported here as `false`) when
`0 < maxsize ≤ qsize()`; Python treats `maxsize <= 0` as unbounded.  The
worker calls `get`, which removes the oldest item. -/

/-- A snapshot handed to the queue: `(db_level, buffer_data)`. -/
abbrev Snapshot := ℚ × List ℚ

/-- The bounded FIFO: `maxsize` plus the items in arrival order,
oldest first. -/
structure DetectionQueue where
  maxsize : Nat
  items : List Snapshot
deriving Repr, DecidableEq

/-- A fresh `queue.Queue(maxsize=m)`: it starts empty. -/
def DetectionQueue.empty (m : Nat) : DetectionQueue := ⟨m, []⟩

/-- The method `put_nowait`: appends at the back and returns `true`, or rejects
(`queue.Full`) and returns `false` when the queue is bounded and at
capacity.  Never blocks: it is a total function of the current state. -/
def DetectionQueue.put_nowait (q : DetectionQueue) (x : Snapshot) :
    DetectionQueue × Bool :=
  if 0 < q.maxsize ∧ q.maxsize ≤ q.items.length then (q, false)
  else ({ q with items := q.items ++ [x] }, true)

/-- The method `get`: removes and returns the oldest item, or reports Empty. -/
def DetectionQueue.get? (q : DetectionQueue) : Option (Snapshot × DetectionQueue) :=
  match q.items with
  | [] => none
  | x :: rest => some (x, { q with items := rest })

/-- A sequence of `put_nowait` calls; returns the final queue and the
acceptance flag of each call, in order. -/
def DetectionQueue.putAll (q : DetectionQueue) : List Snapshot → DetectionQueue × List Bool
  | [] => (q, [])
  | x :: xs =>
      let r := q.put_nowait x
      let rr := r.1.putAll xs
      (rr.1, r.2 :: rr.2)

/-- Repeated `get` calls (`n` of them) by the worker; returns the dequeued items in
the order the worker receives them. -/
def DetectionQueue.dequeueN : DetectionQueue → Nat → List Snapshot
  | _, 0 => []
  | q, n + 1 =>
      match q.get? with
      | none => []
      | some (x, q') => x :: q'.dequeueN n

theorem DetectionQueue.putAll_spec (m : Nat) (hm : 0 < m) :
    ∀ (xs : List Snapshot) (l : List Snapshot), l.length ≤ m →
      (DetectionQueue.putAll ⟨m, l⟩ xs).1 = ⟨m, l ++ xs.take (m - l.length)⟩
      ∧ (DetectionQueue.putAll ⟨m, l⟩ xs).2
          = List.replicate (min xs.length (m - l.length)) true
            ++ List.replicate (xs.length - (m - l.length)) false := by
  intro xs
  induction xs with
  | nil =>
    intro l hl
    simp [DetectionQueue.putAll]
  | cons x xs ih =>
    intro l hl
    by_cases hfull : m ≤ l.length
    · have hl' : l.length = m := le_antisymm hl hfull
      have hrej : (DetectionQueue.put_nowait ⟨m, l⟩ x) = (⟨m, l⟩, false) := by
        simp [DetectionQueue.put_nowait, hm, hfull]
      have := ih l hl
      simp only [DetectionQueue.putAll, hrej, this.1, this.2]
      constructor
      · simp [show m - l.length = 0 from by omega]
      · simp [show m - l.length = 0 from by omega, List.replicate_succ]
    · push_neg at hfull
      have hacc : (DetectionQueue.put_nowait ⟨m, l⟩ x)
          = (⟨m, l ++ [x]⟩, true) := by
        simp [DetectionQueue.put_nowait, hm]
        omega
      have hlen' : (l ++ [x]).length ≤ m := by simp; omega
      have := ih (l ++ [x]) hlen'
      simp only [DetectionQueue.putAll, hacc, this.1, this.2]
      have hitems : (l ++ [x]) ++ xs.take (m - (l ++ [x]).length)
          = l ++ (x :: xs).take (m - l.length) := by
        rw [List.append_assoc,
          show m - l.length = (m - (l ++ [x]).length) + 1 from by
            simp only [List.length_append, List.length_singleton, List.length_cons, List.length_nil]; omega,
          List.take_succ_cons, List.singleton_append]
      have hmin : min (x :: xs).length (m - l.length)
          = (min xs.length (m - (l ++ [x]).length)) + 1 := by
        simp only [List.length_append, List.length_singleton, List.length_cons, List.length_nil]
        omega
      have hsub : (x :: xs).length - (m - l.length)
          = xs.length - (m - (l ++ [x]).length) := by
        simp only [List.length_append, List.length_singleton, List.length_cons, List.length_nil]
        omega
      constructor
      · rw [hitems]
      · rw [hmin, hsub, List.replicate_succ, List.cons_append]

theorem DetectionQueue.dequeueN_take (n : Nat) :
    ∀ (q : DetectionQueue), q.dequeueN n = q.items.take n := by
  induction n with
  | zero => intro q; simp [DetectionQueue.dequeueN]
  | succ n ih =>
    intro q
    match hq : q.items with
    | [] => simp [DetectionQueue.dequeueN, DetectionQueue.get?, hq]
    | x :: rest =>
      simp [DetectionQueue.dequeueN, DetectionQueue.get?, hq, ih]

/-- Claim C3: enqueuing onto an empty queue of capacity `Qmax` with no
consumer draining retains exactly the first `Qmax` snapshots, rejects
every later attempt (so with `Qmax + 1` attempts the last is rejected),
never blocks (the producer-side call is a total function), and the worker
dequeues the retained snapshots in exactly enqueue order. -/
theorem C3_detection_queue (Qmax : Nat) (hQ : 0 < Qmax) (xs : List Snapshot) :
    ((DetectionQueue.empty Qmax).putAll xs).1.items = xs.take Qmax
    ∧ ((DetectionQueue.empty Qmax).putAll xs).2
        = List.replicate (min xs.length Qmax) true
          ++ List.replicate (xs.length - Qmax) false
    ∧ ∀ n, (((DetectionQueue.empty Qmax).putAll xs).1.dequeueN n) = (xs.take Qmax).take n := by
  have h := DetectionQueue.putAll_spec Qmax hQ xs [] (by simp)
  have h1 : ((DetectionQueue.empty Qmax).putAll xs).1 = ⟨Qmax, xs.take Qmax⟩ := by
    simpa [DetectionQueue.empty] using h.1
  refine ⟨?_, ?_, ?_⟩
  · rw [h1]
  · simpa [DetectionQueue.empty] using h.2
  · intro n
    rw [h1, DetectionQueue.dequeueN_take]

/-- Witness for C3 at `Qmax = 2` with three enqueue attempts: the first two
are retained in order, the third is rejected. -/
theorem C3_detection_queue_witness :
    ((DetectionQueue.empty 2).putAll [((1 : ℚ), [1]), (2, [2]), (3, [3])]).1.items
        = [((1 : ℚ), [1]), (2, [2])]
    ∧ ((DetectionQueue.empty 2).putAll [((1 : ℚ), [1]), (2, [2]), (3, [3])]).2
        = [true, true, false] := by
  have h := C3_detection_queue 2 (by norm_num) [((1 : ℚ), [1]), (2, [2]), (3, [3])]
  constructor
  · simpa using h.1
  · simpa using h.2.1

/-! ## Validation (src/gunshot_logger.py, lines 323-346)

`validate_audio_data` returns `(False, reason)` at the first failing check:
empty input, all samples exactly zero, `rms < 1e-6`, or `max_amp < 1e-4`;
otherwise `(True, summary)`.  The reason string is only logged, so it is
omitted here.  Because `rms = sqrt(mean(x^2))` is nonnegative and `sqrt` is
monotone, the check `sqrt(mean(x^2)) < 1e-6` is expressed without square
roots as `mean(x^2) < (1e-6)^2`, which keeps the embedding exact over ℚ. -/

/-- The value `np.mean(np.square(xs))`: the mean of the squared samples (the square of
the RMS the source compares against `1e-6`). -/
def mean_square (xs : List ℚ) : ℚ :=
  (xs.map fun x => x * x).sum / xs.length

/-- The value `np.max(np.abs(xs))` (the source only evaluates it on nonempty input;
the `0` seed is never the maximum there since absolute values are ≥ 0). -/
def max_abs (xs : List ℚ) : ℚ :=
  (xs.map fun x => |x|).foldr max 0

/-- The silence floor `1e-6`, squared to compare against `mean_square`. -/
def silence_floor_sq : ℚ := (1 / 1000000) ^ 2

/-- The amplitude floor `1e-4`. -/
def amp_floor : ℚ := 1 / 10000

/-- The method `validate_audio_data(audio_data)`: `true` iff the snapshot passes every
check. -/
def validate_audio_data (xs : List ℚ) : Bool :=
  if xs.length = 0 then false
  else if xs.all fun x => decide (x = 0) then false
  else if mean_square xs < silence_floor_sq then false
  else if max_abs xs < amp_floor then false
  else true

/-! ## Counter state (src/gunshot_logger.py, lines 167-185)

`load_state` reads `gunshot_state.json` and returns
`state.get('file_counter', 1)`; a missing file (`FileNotFoundError`),
unparseable contents (`json.JSONDecodeError`) and any other exception all
yield the default 1.  `save_state` writes `{'file_counter': counter}`;
a write failure is logged and swallowed.  The file is modelled as missing,
corrupt (present but unparseable), or a parsed JSON object whose integer
fields are an association list. -/

inductive StateFile where
  | missing
  | corrupt
  | json (fields : List (String × ℤ))
deriving Repr, DecidableEq

/-- The method `load_state()`. -/
def load_state : StateFile → ℤ
  | .missing => 1
  | .corrupt => 1
  | .json fields => (fields.lookup "file_counter").getD 1

/-- The method `save_state()`; `ok` is whether the write raised (failure leaves the
old file in place and is only logged). -/
def save_state (sf : StateFile) (v : ℤ) (ok : Bool) : StateFile :=
  if ok then .json [("file_counter", v)] else sf

/-! ## Persistence (src/gunshot_logger.py, lines 348-395)

`save_gunshot` validates, then writes
`gunshots/gunshot_{file_counter:03d}.wav` (creating the directory), with the
flat snapshot reshaped to stereo frames (dropping a trailing odd sample),
clipped to [-1, 1], scaled by 32767 and cast to int16 (numpy truncates
toward zero); on success it increments `file_counter` and calls
`save_state`.  Any exception inside the `try` block (directory creation or
the WAV write) is caught and logged, leaving counter, state file and file
list unchanged; `env.wav_write_ok` stands for that block succeeding. -/

/-- The constant `CONFIG['CHANNELS']`. -/
def CHANNELS : Nat := 2

/-- The value `np.clip(x, -1.0, 1.0)`. -/
def clip1 (x : ℚ) : ℚ := max (-1) (min 1 x)

/-- The cast `.astype(np.int16)` on a value already in [-32767, 32767]: C-style
truncation toward zero. -/
def to_int16_trunc (q : ℚ) : ℤ := if 0 ≤ q then ⌊q⌋ else ⌈q⌉

/-- The sample transformation of `save_gunshot`: stereo reshape (drop a
trailing odd sample when `CHANNELS == 2`; `reshape(-1, 2)` then flattens
back to the same interleaved order in the WAV file), clip, scale, cast. -/
def pcm_samples (xs : List ℚ) : List ℤ :=
  let xs' := if CHANNELS = 2 then (if xs.length % 2 ≠ 0 then xs.dropLast else xs) else xs
  ((xs'.map clip1).map fun x => to_int16_trunc (x * 32767))

/-- Python `f"{n:03d}"`: decimal digits left-padded with zeros to width 3
(the sign counts toward the width for negative values). -/
def zeroPad (w : Nat) (s : String) : String :=
  String.mk (List.replicate (w - s.length) '0') ++ s

def pad3 (n : ℤ) : String :=
  if n < 0 then "-" ++ zeroPad 2 (toString (-n).toNat) else zeroPad 3 (toString n.toNat)

/-- The path `GUNSHOT_DIR / f"gunshot_{file_counter:03d}.wav"`, relative to the USB
mount. -/
def gunshot_filename (counter : ℤ) : String :=
  "gunshots/gunshot_" ++ pad3 counter ++ ".wav"

/-- The mutable state `save_gunshot` touches: files written so far (path and
PCM contents), the persisted counter file, and `self.file_counter`. -/
structure SaveState where
  files : List (String × List ℤ)
  state_file : StateFile
  file_counter : ℤ
deriving Repr, DecidableEq

/-- Environment outcomes of the I/O `save_gunshot` performs: whether
`self.usb_path` is set, whether the directory creation and WAV write
succeed, and whether the state-file write succeeds. -/
structure SaveEnv where
  usb_present : Bool
  wav_write_ok : Bool
  state_write_ok : Bool
deriving Repr, DecidableEq

/-- The method `save_gunshot(audio_data, db_level)` (the decibel argument only feeds the
log line). -/
def save_gunshot (w : SaveState) (xs : List ℚ) (env : SaveEnv) : SaveState :=
  if !env.usb_present then w
  else if !validate_audio_data xs then w
  else if env.wav_write_ok then
    { files := w.files ++ [(gunshot_filename w.file_counter, pcm_samples xs)]
      state_file := save_state w.state_file (w.file_counter + 1) env.state_write_ok
      file_counter := w.file_counter + 1 }
  else w

/-- Claim C4: validation rejects a snapshot exactly when it is empty, all
zeros, has mean-square (squared RMS) below the squared silence floor, or has
peak amplitude below the amplitude floor; and a rejected snapshot is never
persisted (`save_gunshot` returns with the state untouched). -/
theorem C4_validation (xs : List ℚ) :
    (validate_audio_data xs = false ↔
      (xs = [] ∨ (∀ x ∈ xs, x = 0) ∨ mean_square xs < silence_floor_sq
        ∨ max_abs xs < amp_floor))
    ∧ (validate_audio_data xs = false →
        ∀ (w : SaveState) (env : SaveEnv), save_gunshot w xs env = w) := by
  constructor
  · unfold validate_audio_data
    split_ifs with h1 h2 h3 h4
    · simp only [eq_self_iff_true, true_iff]
      exact Or.inl (List.length_eq_zero.mp h1)
    · simp only [eq_self_iff_true, true_iff]
      simp only [List.all_eq_true, decide_eq_true_eq] at h2
      exact Or.inr (Or.inl h2)
    · simp only [eq_self_iff_true, true_iff]
      exact Or.inr (Or.inr (Or.inl h3))
    · simp only [eq_self_iff_true, true_iff]
      exact Or.inr (Or.inr (Or.inr h4))
    · simp only [Bool.true_eq_false, false_iff]
      rintro (h | h | h | h)
      · exact h1 (by simp [h])
      · exact h2 (by simp only [List.all_eq_true, decide_eq_true_eq]; exact h)
      · exact h3 h
      · exact h4 h
  · intro hv w env
    cases hu : env.usb_present
    · simp [save_gunshot, hu]
    · simp [save_gunshot, hu, hv]

/-- Witness for C4: the all-zero snapshot `[0, 0]` is rejected and
`save_gunshot` leaves the state untouched. -/
theorem C4_validation_witness :
    validate_audio_data [(0 : ℚ), 0] = false
    ∧ save_gunshot ⟨[], .missing, 1⟩ [(0 : ℚ), 0] ⟨true, true, true⟩
        = ⟨[], .missing, 1⟩ := by
  have hv : validate_audio_data [(0 : ℚ), 0] = false := by
    norm_num [validate_audio_data]
  exact ⟨hv, (C4_validation [(0 : ℚ), 0]).2 hv ⟨[], .missing, 1⟩ ⟨true, true, true⟩⟩

/-- Claim C5: with the USB present and the state-file write not itself
failing, the in-memory counter advances by exactly one and the new value is
re-persisted if and only if validation passes and the WAV write succeeds;
a validation reject or a failed write leaves both counters unchanged, and a
reject additionally writes no file. -/
theorem C5_counter_advance (w : SaveState) (xs : List ℚ) (env : SaveEnv)
    (husb : env.usb_present = true) (hst : env.state_write_ok = true) :
    (((save_gunshot w xs env).file_counter = w.file_counter + 1
        ∧ (save_gunshot w xs env).state_file
            = .json [("file_counter", w.file_counter + 1)])
      ↔ (validate_audio_data xs = true ∧ env.wav_write_ok = true))
    ∧ ((validate_audio_data xs = false ∨ env.wav_write_ok = false) →
        (save_gunshot w xs env).file_counter = w.file_counter
        ∧ (save_gunshot w xs env).state_file = w.state_file)
    ∧ (validate_audio_data xs = false → (save_gunshot w xs env).files = w.files) := by
  cases hv : validate_audio_data xs <;> cases hw : env.wav_write_ok <;>
    simp [save_gunshot, husb, hst, hv, hw, save_state]

/-- Witness for C5: a valid snapshot with all writes succeeding advances the
counter from 1 to 2 and persists 2. -/
theorem C5_counter_advance_witness :
    (save_gunshot ⟨[], .missing, 1⟩ [(1 : ℚ)/2, -2] ⟨true, true, true⟩).file_counter = 2
    ∧ (save_gunshot ⟨[], .missing, 1⟩ [(1 : ℚ)/2, -2] ⟨true, true, true⟩).state_file
        = .json [("file_counter", 2)] := by
  have hv : validate_audio_data [(1 : ℚ)/2, -2] = true := by
    norm_num [validate_audio_data, mean_square, max_abs, silence_floor_sq, amp_floor]
  have h := (C5_counter_advance ⟨[], .missing, 1⟩ [(1 : ℚ)/2, -2] ⟨true, true, true⟩
    rfl rfl).1.mpr ⟨hv, rfl⟩
  exact ⟨h.1, h.2⟩

/-- Claim C6: the counter round-trips — `save(v)` (when the write succeeds)
followed by `load()` returns `v`; a missing or corrupt state file loads as
the default 1; both functions are total (no fatal error). -/
theorem C6_counter_roundtrip (sf : StateFile) (v : ℤ) :
    load_state (save_state sf v true) = v
    ∧ load_state .missing = 1
    ∧ load_state .corrupt = 1 := by
  refine ⟨?_, rfl, rfl⟩
  simp [save_state, load_state]

/-- Claim C10: valid JSON that is an object without a `file_counter` field
loads as the default 1 — the same value as a missing or corrupt file — via
`dict.get`'s default, with no exception raised. -/
theorem C10_load_missing_field (fields : List (String × ℤ))
    (h : fields.lookup "file_counter" = none) :
    load_state (.json fields) = 1
    ∧ load_state (.json fields) = load_state .missing
    ∧ load_state (.json fields) = load_state .corrupt := by
  refine ⟨?_, ?_, ?_⟩ <;> simp [load_state, h]

/-- Witness for C10 on the object `{"other": 7}`. -/
theorem C10_load_missing_field_witness :
    load_state (.json [("other", 7)]) = 1 :=
  (C10_load_missing_field [("other", 7)] (by decide)).1

/-- Modelled from the spec wording of §4.4 Persistence, for comparison with
the code's transformation: reshape into frame-major channel layout
discarding a trailing incomplete frame when the sample count is not
divisible by the channel count, clip to [-1, 1], scale by 32767 and truncate
to int16. -/
def spec_pcm (channels : Nat) (xs : List ℚ) : List ℤ :=
  (xs.take (channels * (xs.length / channels))).map fun x =>
    to_int16_trunc (clip1 x * 32767)

theorem pcm_samples_eq_spec (xs : List ℚ) : pcm_samples xs = spec_pcm CHANNELS xs := by
  unfold pcm_samples spec_pcm CHANNELS
  by_cases h : xs.length % 2 = 0
  · rw [if_pos rfl, if_neg (by omega), show 2 * (xs.length / 2) = xs.length from by omega,
      List.take_length, List.map_map]
    rfl
  · rw [if_pos rfl, if_pos h, List.dropLast_eq_take,
      show 2 * (xs.length / 2) = xs.length - 1 from by omega, List.map_map]
    rfl

/-- Claim C7: for a snapshot that passes validation (hence nonempty), the
persisted PCM data is exactly the spec's transformation chain: stereo
reshape with the trailing incomplete frame discarded, clip to [-1, 1],
multiply by 32767, truncate to int16. -/
theorem C7_persisted_samples (w : SaveState) (xs : List ℚ) (env : SaveEnv)
    (husb : env.usb_present = true) (hv : validate_audio_data xs = true)
    (hw : env.wav_write_ok = true) :
    (save_gunshot w xs env).files
      = w.files ++ [(gunshot_filename w.file_counter, spec_pcm CHANNELS xs)] := by
  rw [← pcm_samples_eq_spec]
  simp [save_gunshot, husb, hv, hw]

/-- Witness for C7: the snapshot `[1/2, -2, 3/4]` (odd length, so the last
sample is discarded) persists as `[16383, -32767]`. -/
theorem C7_persisted_samples_witness :
    (save_gunshot ⟨[], .missing, 1⟩ [(1 : ℚ)/2, -2, 3/4] ⟨true, true, true⟩).files
      = [("gunshots/gunshot_001.wav", [16383, -32767])]
    ∧ spec_pcm CHANNELS [(1 : ℚ)/2, -2, 3/4] = [16383, -32767] := by
  have hv : validate_audio_data [(1 : ℚ)/2, -2, 3/4] = true := by
    norm_num [validate_audio_data, mean_square, max_abs, silence_floor_sq, amp_floor]
  have hpcm : spec_pcm CHANNELS [(1 : ℚ)/2, -2, 3/4] = [16383, -32767] := by
    rw [← pcm_samples_eq_spec]
    norm_num [pcm_samples, CHANNELS, clip1, to_int16_trunc]
    rw [show ((-32767 : ℚ)) = ((-32767 : ℤ) : ℚ) by norm_num, Int.ceil_intCast]
  have h := C7_persisted_samples ⟨[], .missing, 1⟩ [(1 : ℚ)/2, -2, 3/4] ⟨true, true, true⟩
    rfl hv rfl
  constructor
  · rw [h, hpcm]
    rfl
  · exact hpcm

/-- Unfolding of a fully successful `save_gunshot` call. -/
theorem save_gunshot_success (w : SaveState) (xs : List ℚ) (env : SaveEnv)
    (husb : env.usb_present = true) (hv : validate_audio_data xs = true)
    (hw : env.wav_write_ok = true) :
    save_gunshot w xs env
      = { files := w.files ++ [(gunshot_filename w.file_counter, pcm_samples xs)]
          state_file := save_state w.state_file (w.file_counter + 1) env.state_write_ok
          file_counter := w.file_counter + 1 } := by
  simp [save_gunshot, husb, hv, hw]

/-- Counterexample to C9 as stated: the program names capture files
`gunshot_{counter:03d}.wav`, not `capture_{counter:03d}`.  At counter 5 the
file actually written is `gunshots/gunshot_005.wav`. -/
theorem C9_counterexample :
    (save_gunshot ⟨[], .missing, 5⟩ [(1 : ℚ)/2, -2] ⟨true, true, true⟩).files
        = [("gunshots/gunshot_005.wav", [16383, -32767])]
    ∧ ("gunshots/gunshot_005.wav" : String) ≠ "gunshots/capture_005"
    ∧ ("gunshots/gunshot_005.wav" : String) ≠ "capture_005" := by
  have hv : validate_audio_data [(1 : ℚ)/2, -2] = true := by
    norm_num [validate_audio_data, mean_square, max_abs, silence_floor_sq, amp_floor]
  have hpcm : pcm_samples [(1 : ℚ)/2, -2] = [16383, -32767] := by
    norm_num [pcm_samples, CHANNELS, clip1, to_int16_trunc]
    rw [show ((-32767 : ℚ)) = ((-32767 : ℤ) : ℚ) by norm_num, Int.ceil_intCast]
  refine ⟨?_, by decide, by decide⟩
  rw [save_gunshot_success _ _ _ rfl hv rfl, hpcm]
  rfl

/-- Claim C9 as amended: every successful persistence writes its capture to
`gunshot_{counter:03d}.wav` (counter zero-padded to three digits) inside the
`gunshots` directory on the USB mount. -/
theorem C9_amended_filename (w : SaveState) (xs : List ℚ) (env : SaveEnv)
    (husb : env.usb_present = true) (hv : validate_audio_data xs = true)
    (hw : env.wav_write_ok = true) :
    (save_gunshot w xs env).files
      = w.files
        ++ [("gunshots/gunshot_" ++ pad3 w.file_counter ++ ".wav", pcm_samples xs)] := by
  simp [save_gunshot, husb, hv, hw, gunshot_filename]

/-- Witness for the amended C9 at counter 5. -/
theorem C9_amended_filename_witness :
    (save_gunshot ⟨[], .missing, 5⟩ [(1 : ℚ)/2, -2] ⟨true, true, true⟩).files
      = [("gunshots/gunshot_005.wav", [16383, -32767])] := by
  have hv : validate_audio_data [(1 : ℚ)/2, -2] = true := by
    norm_num [validate_audio_data, mean_square, max_abs, silence_floor_sq, amp_floor]
  have hpcm : pcm_samples [(1 : ℚ)/2, -2] = [16383, -32767] := by
    norm_num [pcm_samples, CHANNELS, clip1, to_int16_trunc]
    rw [show ((-32767 : ℚ)) = ((-32767 : ℤ) : ℚ) by norm_num, Int.ceil_intCast]
  have h := C9_amended_filename ⟨[], .missing, 5⟩ [(1 : ℚ)/2, -2] ⟨true, true, true⟩
    rfl hv rfl
  rw [h, hpcm]
  rfl

/-! ## Rate-limited logging (src/gunshot_logger.py, lines 147-165)

`rate_limited_log` keeps `self.error_counts[error_key] =
{'count': c, 'last_time': t}` (created as `{0, 0}` on first sight of a key).
If `now - t > ERROR_COOLDOWN` it emits — appending
`" (occurred {c} times)"` only when `c > 1` — and resets the entry to
`{0, now}`; otherwise it increments `count` and emits nothing. -/

/-- The constant `CONFIG['ERROR_COOLDOWN']` (seconds). -/
def ERROR_COOLDOWN : ℚ := 60

/-- One `self.error_counts[error_key]` entry. -/
structure RLEntry where
  count : Nat
  last_time : ℚ
deriving Repr, DecidableEq

/-- The `error_counts` dict, as an association list. -/
abbrev RLState := List (String × RLEntry)

/-- Dict read with the `{'count': 0, 'last_time': 0}` default the source
installs for an unseen key. -/
def getEntry (st : RLState) (key : String) : RLEntry :=
  (st.lookup key).getD ⟨0, 0⟩

/-- Dict write: replace the entry for `key`, or append it. -/
def setEntry : RLState → String → RLEntry → RLState
  | [], key, v => [(key, v)]
  | (k, v') :: rest, key, v =>
      if k = key then (key, v) :: rest else (k, v') :: setEntry rest key v

/-- The method `rate_limited_log(level, message, error_key)`: returns the updated
`error_counts` and the emitted line, if any (the `level` argument only
selects the logger method). -/
def rate_limited_log (st : RLState) (now : ℚ) (key message : String) :
    RLState × Option String :=
  let e := getEntry st key
  if now - e.last_time > ERROR_COOLDOWN then
    let message' := if e.count > 1
      then message ++ " (occurred " ++ toString e.count ++ " times)"
      else message
    (setEntry st key ⟨0, now⟩, some message')
  else
    (setEntry st key ⟨e.count + 1, e.last_time⟩, none)

theorem getEntry_setEntry (st : RLState) (key : String) (v : RLEntry) :
    getEntry (setEntry st key v) key = v := by
  induction st with
  | nil => simp [setEntry, getEntry, List.lookup]
  | cons p rest ih =>
    obtain ⟨k, v'⟩ := p
    by_cases hk : k = key
    · subst hk
      simp [setEntry, getEntry, List.lookup]
    · rw [setEntry, if_neg hk]
      rw [getEntry, List.lookup]
      rw [show (key == k) = false from beq_eq_false_iff_ne.mpr (Ne.symm hk)]
      exact ih

/-- Counterexample to C8 as stated: when exactly one occurrence was
suppressed during the cooldown window, the emission after the window carries
no appended count (the source only appends for `count > 1`).  Key `"k"`,
message `"boom"`, calls at times 100, 130 (suppressed) and 200. -/
theorem C8_counterexample :
    (getEntry (rate_limited_log (rate_limited_log [] 100 "k" "boom").1
        130 "k" "boom").1 "k").count = 1
    ∧ (rate_limited_log (rate_limited_log (rate_limited_log [] 100 "k" "boom").1
        130 "k" "boom").1 200 "k" "boom").2 = some "boom"
    ∧ (rate_limited_log (rate_limited_log (rate_limited_log [] 100 "k" "boom").1
          130 "k" "boom").1 200 "k" "boom").2
        ≠ some "boom (occurred 1 times)" := by
  refine ⟨?_, ?_, ?_⟩ <;>
    norm_num [rate_limited_log, getEntry, setEntry, ERROR_COOLDOWN, List.lookup] <;>
    decide

/-- Claim C8 as amended: the first occurrence of a key emits immediately
(given that it happens later than the cooldown after the epoch-zero initial
timestamp); occurrences within the cooldown window increment the suppressed
counter and emit nothing; the first occurrence after the cooldown elapses
emits exactly once — with the suppressed count appended only when more than
one occurrence was suppressed — and resets the key's counter to zero and its
timestamp to the emission time. -/
theorem C8_rate_limited_log (st : RLState) (now : ℚ) (key message : String) :
    (ERROR_COOLDOWN < now - (getEntry st key).last_time →
      (rate_limited_log st now key message).2
        = some (if (getEntry st key).count > 1
            then message ++ " (occurred " ++ toString (getEntry st key).count ++ " times)"
            else message)
      ∧ getEntry (rate_limited_log st now key message).1 key = ⟨0, now⟩)
    ∧ (now - (getEntry st key).last_time ≤ ERROR_COOLDOWN →
      (rate_limited_log st now key message).2 = none
      ∧ getEntry (rate_limited_log st now key message).1 key
          = ⟨(getEntry st key).count + 1, (getEntry st key).last_time⟩)
    ∧ (st.lookup key = none → ERROR_COOLDOWN < now →
      (rate_limited_log st now key message).2 = some message) := by
  refine ⟨?_, ?_, ?_⟩
  · intro h
    rw [rate_limited_log]
    rw [if_pos (by exact h)]
    exact ⟨rfl, getEntry_setEntry st key ⟨0, now⟩⟩
  · intro h
    rw [rate_limited_log, if_neg (by exact not_lt.mpr h)]
    exact ⟨rfl, getEntry_setEntry st key _⟩
  · intro hnone hnow
    have he : getEntry st key = ⟨0, 0⟩ := by simp [getEntry, hnone]
    rw [rate_limited_log, he]
    rw [if_pos (by simpa using hnow)]
    simp

/-- Witness for the amended C8: a fresh key at time 100 emits the plain
message. -/
theorem C8_rate_limited_log_witness :
    (rate_limited_log [] 100 "k" "m").2 = some "m" := by
  have h := (C8_rate_limited_log [] 100 "k" "m").2.2 rfl
    (by norm_num [ERROR_COOLDOWN])
  exact h

end GunshotSpec
